import Mathlib

/-!
Verification development for the micro-app lifecycle state machine
(`src/create_app.ts`) and the router virtualization layer
(`src/sandbox/router/index.ts`).

The lifecycle is embedded as pure functions over an `App` record, returning
the updated record together with an explicit trace of the externally visible
side effects (lifecycle events to the host, custom events to the micro app,
sandbox operations, script execution, UMD hook invocations, error logging).
External collaborators (the source loader, the sandbox proxy global, the DOM)
are not part of the repository's two source files, so their observable
answers are supplied as explicit oracle parameters.
-/

set_option autoImplicit false

namespace MicroApp

/-- App lifecycle states (the `appStates` constants used by `create_app.ts`). -/
inductive AppState where
  | NOT_LOADED
  | LOADING_SOURCE_CODE
  | LOAD_SOURCE_FINISHED
  | LOAD_SOURCE_ERROR
  | MOUNTING
  | MOUNTED
  | UNMOUNT
deriving DecidableEq, Repr

/-- Keep-alive sub-states (the `keepAliveStates` constants). -/
inductive KeepAliveState where
  | KEEP_ALIVE_HIDDEN
  | KEEP_ALIVE_SHOW
deriving DecidableEq, Repr

/-- Outcome of invoking a UMD hook supplied by the sub-application: it may
throw synchronously, return a plain value, or return a promise that later
resolves or rejects. -/
inductive HookOutcome where
  | throws
  | ret
  | promiseResolve
  | promiseReject
deriving DecidableEq, Repr

/-- The value held by `umdHookMountResult` / `umdHookUnmountResult`:
`undef` when the hook was never run or threw before assigning. -/
inductive MRes where
  | undef
  | value
  | promiseResolved
  | promiseRejected
deriving DecidableEq, Repr

/-- Externally visible side effects emitted by the lifecycle code, in order. -/
inductive Effect where
  | lifecycle (event : String) (appName : String)
  | customEvent (event : String) (appName : String)
  | cloneContainer (deep : Bool)
  | sandboxStart (baseroute : String)
  | sandboxStop
  | execScriptsStart
  | recordUmdSnapshot
  | rebuildUmdSnapshot
  | callUmdHookMount
  | callUmdHookUnmount
  | logError (site : String)
  | deleteWindowLibrary
  | clearContainer
deriving DecidableEq, Repr

/-- One instance of `CreateApp`: the fields of the class that the verified
operations read or write. DOM handles are abstracted to identifiers. -/
structure App where
  state : AppState := AppState.NOT_LOADED
  keepAliveState : Option KeepAliveState := none
  loadSourceLevel : Int := 0
  umdHookMount : Bool := false
  umdHookUnmount : Bool := false
  libraryName : Option String := none
  umdMode : Bool := false
  isPrefetch : Bool := false
  name : String
  url : String
  container : Option String := none
  inline : Bool := false
  baseroute : String := ""
  useSandbox : Bool := true
  sourceHtml : Option String := none
deriving DecidableEq, Repr

/-- The process-wide `appInstanceMap`, modelled as an association list. -/
abbrev Registry := List (String × App)

/-- Lookup in the registry (`appInstanceMap.get`). -/
def lookupApp (k : String) : Registry → Option App
  | [] => none
  | p :: ps => if p.1 = k then some p.2 else lookupApp k ps

/-- One invocation of the `execScripts` completion callback, with the oracle
answers for everything the callback observes from outside this module:
whether all scripts have finished, whether the probed global export object
exposes mount and unmount functions, the container's `library` attribute, and
how the freshly detected mount hook behaves when invoked. -/
structure CallbackStep where
  isFinished : Bool
  probeFindsHooks : Bool
  libraryAttr : Option String
  mountHookOutcome : HookOutcome
deriving DecidableEq, Repr

/-- Oracle for one `mount` call: the sequence of `execScripts` callback
invocations (non-UMD path) and the behavior of the cached hook (UMD path). -/
structure MountOracle where
  steps : List CallbackStep
  umdRemountOutcome : HookOutcome
deriving DecidableEq, Repr

/-- Oracle for one `unmount` call: behavior of the cached UMD unmount hook
and whether the container still has child elements at teardown time. -/
structure UnmountOracle where
  hookOutcome : HookOutcome
  containerHasChildren : Bool
deriving DecidableEq, Repr

/-- Embeds `getAppState`. -/
def getAppState (app : App) : AppState :=
  app.state

/-- Embeds `dispatchMountedEvent`: set state `MOUNTED` and dispatch the
mounted lifecycle event, unless the app has been unmounted meanwhile. -/
def dispatchMountedEvent (app : App) : App × List Effect :=
  if app.state ≠ AppState.UNMOUNT then
    ({ app with state := AppState.MOUNTED }, [Effect.lifecycle "mounted" app.name])
  else
    (app, [])

/-- Embeds `handleMounted`: a promise-shaped mount result defers the mounted
event to its resolution, a rejection is reported through `onerror`, any other
result dispatches immediately. -/
def handleMounted (app : App) (res : MRes) : App × List Effect :=
  match res with
  | MRes.promiseResolved => dispatchMountedEvent app
  | MRes.promiseRejected => (app, [Effect.lifecycle "error" app.name])
  | _ => dispatchMountedEvent app

/-- Embeds `getUmdLibraryHooks`: after `execScripts` the app may already be
unmounted, in which case no hooks are returned; otherwise `libraryName` is
resolved from the container attribute (falling back to `micro-app-` plus the
app name) and the proxied global is probed (`probeFindsHooks`). Returns
whether both hooks are functions. -/
def getUmdLibraryHooks (app : App) (step : CallbackStep) : App × Bool :=
  if app.state ≠ AppState.UNMOUNT then
    let lib := step.libraryAttr.getD (String.append "micro-app-" app.name)
    ({ app with libraryName := some lib }, step.probeFindsHooks)
  else
    (app, false)

/-- Mutable locals of the `mount` closure threaded through the
`execScripts` callback invocations, plus a ghost counter of how many times
`handleMounted` has been invoked. -/
structure LoopState where
  app : App
  hasDispatchMountedEvent : Bool
  umdHookMountResult : MRes
  dispatchCount : Nat
deriving Repr

/-- Embeds the body of the `execScripts` completion callback inside `mount`:
UMD detection (capture hooks, flip `umdMode`, record the sandbox snapshot,
invoke the mount hook catching synchronous throws) followed by the one-shot
dispatch of the mounted handling. -/
def runCallback (st : LoopState) (step : CallbackStep) : LoopState × List Effect :=
  let phase1 :=
    if st.app.umdMode = false then
      let app1 := (getUmdLibraryHooks st.app step).1
      if (getUmdLibraryHooks st.app step).2 then
        let app2 := { app1 with umdHookMount := true, umdHookUnmount := true, umdMode := true }
        let esSnap := if app2.useSandbox then [Effect.recordUmdSnapshot] else []
        match step.mountHookOutcome with
        | HookOutcome.throws =>
            ({ st with app := app2 },
              esSnap ++ [Effect.callUmdHookMount, Effect.logError "mount"])
        | HookOutcome.ret =>
            ({ st with app := app2, umdHookMountResult := MRes.value },
              esSnap ++ [Effect.callUmdHookMount])
        | HookOutcome.promiseResolve =>
            ({ st with app := app2, umdHookMountResult := MRes.promiseResolved },
              esSnap ++ [Effect.callUmdHookMount])
        | HookOutcome.promiseReject =>
            ({ st with app := app2, umdHookMountResult := MRes.promiseRejected },
              esSnap ++ [Effect.callUmdHookMount])
      else
        ({ st with app := app1 }, [])
    else
      (st, [])
  let st1 := phase1.1
  let es1 := phase1.2
  if st1.hasDispatchMountedEvent = false ∧ (step.isFinished = true ∨ st1.app.umdMode = true) then
    let hm := handleMounted st1.app st1.umdHookMountResult
    let n1 := st1.dispatchCount + 1
    ({ st1 with app := hm.1, hasDispatchMountedEvent := true, dispatchCount := n1 }, es1 ++ hm.2)
  else
    (st1, es1)

/-- Folds `runCallback` over the whole sequence of callback invocations
produced by `execScripts`, accumulating the effect trace. -/
def runCallbacks (st : LoopState) : List CallbackStep → LoopState × List Effect
  | [] => (st, [])
  | step :: rest =>
      ((runCallbacks (runCallback st step).1 rest).1,
        (runCallback st step).2 ++ (runCallbacks (runCallback st step).1 rest).2)

/-- Embeds `mount`: adopt the container argument only when none is held yet,
update `inline`/`baseroute` from the arguments, bail out (recording intent as
`LOADING_SOURCE_CODE`) when resources are not fully loaded, otherwise
dispatch `beforemount`, enter `MOUNTING`, clone the loaded fragment, start
the sandbox, then either execute scripts with UMD detection (fresh mount) or
rebuild the recorded snapshot and invoke the cached UMD mount hook. -/
def mount (app : App) (containerArg : Option String) (inlineArg : Option Bool)
    (baserouteArg : Option String) (o : MountOracle) : App × List Effect :=
  let newInline : Bool :=
    match inlineArg with
    | some v => if v ≠ app.inline then v else app.inline
    | none => app.inline
  let newContainer : Option String :=
    match app.container with
    | some c => some c
    | none => containerArg
  let app := { app with inline := newInline }
  let app := { app with container := newContainer }
  let app := { app with baseroute := baserouteArg.getD app.baseroute }
  if app.loadSourceLevel ≠ (2 : Int) then
    ({ app with state := AppState.LOADING_SOURCE_CODE }, [])
  else
    let es0 := [Effect.lifecycle "beforemount" app.name]
    let app := { app with state := AppState.MOUNTING }
    let es1 := [Effect.cloneContainer (app.umdMode = false)]
    let es2 := if app.useSandbox then [Effect.sandboxStart app.baseroute] else []
    if app.umdMode = false then
      let loop := runCallbacks ⟨app, false, MRes.undef, 0⟩ o.steps
      (loop.1.app, es0 ++ es1 ++ es2 ++ [Effect.execScriptsStart] ++ loop.2)
    else
      let esRe := if app.useSandbox then [Effect.rebuildUmdSnapshot] else []
      let resHook : MRes × List Effect :=
        match o.umdRemountOutcome with
        | HookOutcome.throws =>
            (MRes.undef, [Effect.callUmdHookMount, Effect.logError "mount"])
        | HookOutcome.ret => (MRes.value, [Effect.callUmdHookMount])
        | HookOutcome.promiseResolve =>
            (MRes.promiseResolved, [Effect.callUmdHookMount])
        | HookOutcome.promiseReject =>
            (MRes.promiseRejected, [Effect.callUmdHookMount])
      let hm := handleMounted app resHook.1
      (hm.1, es0 ++ es1 ++ es2 ++ esRe ++ resHook.2 ++ hm.2)

/-- Embeds `onLoad`: increment `loadSourceLevel`; when it reaches 2 store the
html fragment and, unless the instance is prefetch-only or already unmounted,
enter `LOAD_SOURCE_FINISHED` and mount. -/
def onLoad (app : App) (html : String) (o : MountOracle) : App × List Effect :=
  let app := { app with loadSourceLevel := app.loadSourceLevel + 1 }
  if app.loadSourceLevel = 2 then
    let app := { app with sourceHtml := some html }
    if app.isPrefetch = true ∨ app.state = AppState.UNMOUNT then
      (app, [])
    else
      let app := { app with state := AppState.LOAD_SOURCE_FINISHED }
      mount app none none none o
  else
    (app, [])

/-- Embeds `onLoadError`: set the error sentinel; unless already unmounted,
report the error and enter `LOAD_SOURCE_ERROR`. -/
def onLoadError (app : App) : App × List Effect :=
  let app := { app with loadSourceLevel := -1 }
  if app.state ≠ AppState.UNMOUNT then
    ({ app with state := AppState.LOAD_SOURCE_ERROR },
      [Effect.lifecycle "error" app.name])
  else
    (app, [])

/-- Embeds `actionsForCompletelyDestory`: delete the global UMD export when
running without a sandbox, and remove the instance from `appInstanceMap`. -/
def actionsForCompletelyDestory (app : App) (m : Registry) : Registry × List Effect :=
  (m.filter (fun p => p.1 ≠ app.name),
    if app.useSandbox = false ∧ app.umdMode = true then
      [Effect.deleteWindowLibrary]
    else [])

/-- Embeds `actionsForUnmount`: dispatch the host-facing unmount event, stop
the sandbox, destroy completely or (UMD mode with rendered children) save the
container back into the cached fragment, then clear and release the
container. -/
def actionsForUnmount (app : App) (destroy : Bool) (oc : UnmountOracle)
    (m : Registry) : App × Registry × List Effect :=
  let es0 := [Effect.lifecycle "unmount" app.name]
  let es1 := if app.useSandbox then [Effect.sandboxStop] else []
  let step2 :=
    if destroy then
      actionsForCompletelyDestory app m
    else if app.umdMode = true ∧ oc.containerHasChildren = true then
      (m, [Effect.cloneContainer false])
    else
      (m, [])
  ({ app with container := none }, step2.1, es0 ++ es1 ++ step2.2 ++ [Effect.clearContainer])

/-- Embeds `handleUnmounted`: a promise-shaped unmount result reaches the
final teardown on both resolution and rejection, anything else tears down
immediately. -/
def handleUnmounted (app : App) (destroy : Bool) (res : MRes) (oc : UnmountOracle)
    (m : Registry) : App × Registry × List Effect :=
  match res with
  | MRes.promiseResolved => actionsForUnmount app destroy oc m
  | MRes.promiseRejected => actionsForUnmount app destroy oc m
  | _ => actionsForUnmount app destroy oc m

/-- Embeds `unmount`: force `destroy` on `LOAD_SOURCE_ERROR`, enter `UNMOUNT`
and clear keep-alive, invoke the UMD unmount hook (catching and logging a
synchronous throw), dispatch the sub-app-facing unmount event, then hand the
result to `handleUnmounted`. -/
def unmount (app : App) (destroy : Bool) (oc : UnmountOracle) (m : Registry) :
    App × Registry × List Effect :=
  let destroy := if app.state = AppState.LOAD_SOURCE_ERROR then true else destroy
  let app := { app with state := AppState.UNMOUNT, keepAliveState := none }
  let resEs : MRes × List Effect :=
    if app.umdHookUnmount = true then
      match oc.hookOutcome with
      | HookOutcome.throws =>
          (MRes.undef, [Effect.callUmdHookUnmount, Effect.logError "unmount"])
      | HookOutcome.ret => (MRes.value, [Effect.callUmdHookUnmount])
      | HookOutcome.promiseResolve =>
          (MRes.promiseResolved, [Effect.callUmdHookUnmount])
      | HookOutcome.promiseReject =>
          (MRes.promiseRejected, [Effect.callUmdHookUnmount])
    else
      (MRes.undef, [])
  let es2 := [Effect.customEvent "unmount" app.name]
  let hu := handleUnmounted app destroy resEs.1 oc m
  (hu.1, hu.2.1, resEs.2 ++ es2 ++ hu.2.2)

/-- Embeds `getActiveApps`: names of registered instances that are neither
unmounted nor prefetch-only. -/
def getActiveApps (m : Registry) : List String :=
  m.filterMap (fun p =>
    if AppState.UNMOUNT ≠ getAppState p.2 ∧ p.2.isPrefetch = false then
      some p.1
    else none)

/-- Embeds `getAllApps`: names of every registered instance. -/
def getAllApps (m : Registry) : List String :=
  m.map (fun p => p.1)

/-- The per-app virtual location: pathname, search (with leading `?` or
empty) and hash (with leading `#` or empty). -/
structure MicroLocation where
  pathname : String
  search : String
  hash : String
deriving DecidableEq, Repr

/-- Splits a character list at the first occurrence of `c`: the prefix
before it and, when `c` occurs, the remainder after it. -/
def splitCharsOnFirst (c : Char) : List Char → List Char × Option (List Char)
  | [] => ([], none)
  | x :: xs =>
      if x = c then ([], some xs)
      else (x :: (splitCharsOnFirst c xs).1, (splitCharsOnFirst c xs).2)

/-- Modelled from the spec: parsing of a relative path string into
pathname, search and hash components, as the external `updateLocation` /
`createURL` helpers (from `sandbox/router/location.ts` and `libs/utils`,
not part of the two given source files) decompose a URL: everything from
the first `#` is the hash, everything from the first `?` before the hash
is the search, the rest is the pathname. -/
def parseChars (cs : List Char) : MicroLocation :=
  let bh := splitCharsOnFirst '#' cs
  let ps := splitCharsOnFirst '?' bh.1
  { pathname := String.mk ps.1,
    search := match ps.2 with
      | some s => String.mk ('?' :: s)
      | none => "",
    hash := match bh.2 with
      | some h => String.mk ('#' :: h)
      | none => "" }

/-- Parses a path string into a `MicroLocation`. -/
def parsePath (s : String) : MicroLocation :=
  parseChars s.toList

/-- Modelled from the spec: the external `createURL` helper (from
`libs/utils`, not part of the two given source files) builds a URL object
from a full url such as `http://host/path?query#hash`; only its pathname,
search and hash are consumed here, so the origin is dropped (everything up
to and including the scheme separator and host). -/
def urlPathChars (url : String) : List Char :=
  let cs := url.toList
  let afterColon :=
    match (splitCharsOnFirst ':' cs).2 with
    | some rest => rest
    | none => cs
  let afterSlashes :=
    match afterColon with
    | '/' :: '/' :: r => r
    | r => r
  match (splitCharsOnFirst '/' afterSlashes).2 with
  | some rest => '/' :: rest
  | none => ['/']

/-- The pathname, search and hash of the URL object built from a full url. -/
def createURL (url : String) : MicroLocation :=
  parseChars (urlPathChars url)

/-- Association-list update used to model the per-app-name segments of the
shared browser URL and of `history.state`. -/
def assocSet (k v : String) : List (String × String) → List (String × String)
  | [] => [(k, v)]
  | p :: ps => if p.1 = k then (k, v) :: ps else p :: assocSet k v ps

/-- Association-list lookup. -/
def assocLookup (k : String) : List (String × String) → Option String
  | [] => none
  | p :: ps => if p.1 = k then some p.2 else assocLookup k ps

/-- Modelled from the spec: the shared browser location and history state
carry, for each app name, an encoded micro-path segment in the URL and a
private state payload inside `history.state`, namespaced by app name (the
encoding helpers live in `sandbox/router/core.ts`, not part of the two
given source files). -/
structure BrowserState where
  microPaths : List (String × String)
  microStates : List (String × String)
deriving DecidableEq, Repr

/-- Modelled from the spec: the external `updateLocation` helper decodes a
path string into the app's virtual location (a full overwrite of
pathname, search and hash). -/
def updateLocation (path : String) (loc : MicroLocation) : MicroLocation :=
  parseChars path.toList

/-- The encoded micro-path segment for a location: its
pathname + search + hash, as `setMicroPathToURL` serializes it. -/
def encodeLocation (loc : MicroLocation) : String :=
  String.append loc.pathname (String.append loc.search loc.hash)

/-- Embeds `updateBrowserURLWithLocation`: encode the app's virtual
location into the shared URL (`setMicroPathToURL`) and its private payload
into the shared history state (`setMicroState`), then replace the browser
URL (`updateBrowserURL`). -/
def updateBrowserURLWithLocation (appName url : String) (loc : MicroLocation)
    (bs : BrowserState) : BrowserState :=
  { microPaths := assocSet appName (encodeLocation loc) bs.microPaths,
    microStates := assocSet appName (encodeLocation loc) bs.microStates }

/-- Embeds `initRouteStateWithURL`: when the shared URL already carries an
encoded segment for this app (`getMicroPathFromURL`), decode it into the
virtual location; otherwise export the virtual location into the browser
URL and history state. Returns the resulting location and browser state. -/
def initRouteStateWithURL (appName url : String) (loc : MicroLocation)
    (bs : BrowserState) : MicroLocation × BrowserState :=
  match assocLookup appName bs.microPaths with
  | some microPath => (updateLocation microPath loc, bs)
  | none => (loc, updateBrowserURLWithLocation appName url loc bs)

/-- Embeds `removeStateAndPathFromBrowser`: strip this app's micro state
from `history.state` (`removeMicroState`) and its micro path from the
browser URL (`removeMicroPathFromURL`), then replace the browser URL. -/
def removeStateAndPathFromBrowser (appName : String) (bs : BrowserState) :
    BrowserState :=
  { microPaths := bs.microPaths.filter (fun p => p.1 ≠ appName),
    microStates := bs.microStates.filter (fun p => p.1 ≠ appName) }

/-- Embeds `clearRouteStateFromURL`: when `keepRouteState` is false, reset
the virtual location to the pathname + search + hash of the URL created
from the app's base url; in both cases strip the app's segment and state
from the browser. -/
def clearRouteStateFromURL (appName url : String) (loc : MicroLocation)
    (keepRouteState : Bool) (bs : BrowserState) : MicroLocation × BrowserState :=
  let loc1 :=
    if keepRouteState = false then
      let u := createURL url
      updateLocation (String.append u.pathname (String.append u.search u.hash)) loc
    else
      loc
  (loc1, removeStateAndPathFromBrowser appName bs)

/-! Concrete instances used to exercise the definitions. -/

/-- A freshly constructed app instance, before any resource completes. -/
def app0 : App :=
  { name := "app1", url := "http://a.test/index.html" }

/-- The same instance after one resource channel has completed. -/
def appLvl1 : App :=
  { app0 with loadSourceLevel := 1 }

/-- A fully loaded instance already detected as UMD. -/
def appUmd : App :=
  { app0 with loadSourceLevel := 2, umdMode := true, umdHookMount := true, umdHookUnmount := true, sourceHtml := some "h", state := AppState.MOUNTED }

/-- A fully loaded instance not in UMD mode. -/
def appLoaded : App :=
  { app0 with loadSourceLevel := 2, sourceHtml := some "h", state := AppState.LOAD_SOURCE_FINISHED }

/-- An instance whose source loading failed. -/
def appErr : App :=
  { app0 with loadSourceLevel := -1, state := AppState.LOAD_SOURCE_ERROR }

/-- A trivial mount oracle: no callback invocations. -/
def oracle0 : MountOracle :=
  { steps := [], umdRemountOutcome := HookOutcome.ret }

/-- A callback invocation that is not final and detects nothing. -/
def stepMid : CallbackStep :=
  { isFinished := false, probeFindsHooks := false, libraryAttr := none, mountHookOutcome := HookOutcome.ret }

/-- The final callback invocation of a batch, detecting nothing. -/
def stepFin : CallbackStep :=
  { stepMid with isFinished := true }

/-- A callback invocation in which the probe finds UMD hooks. -/
def stepUmd : CallbackStep :=
  { stepMid with probeFindsHooks := true }

/-- A mount oracle with two callback invocations, the second final. -/
def oracleTwoSteps : MountOracle :=
  { steps := [stepMid, stepFin], umdRemountOutcome := HookOutcome.ret }

/-- An unmount oracle whose hook returns normally. -/
def uoracle0 : UnmountOracle :=
  { hookOutcome := HookOutcome.ret, containerHasChildren := false }

/-- An unmount oracle whose hook throws synchronously. -/
def uoracleThrows : UnmountOracle :=
  { hookOutcome := HookOutcome.throws, containerHasChildren := false }

/-- A registry holding the fresh instance. -/
def reg0 : Registry :=
  [("app1", app0)]

/-- A virtual location pointing at the app's entry page. -/
def loc0 : MicroLocation :=
  { pathname := "/index.html", search := "", hash := "" }

/-- A browser state already carrying an encoded segment for `app1`. -/
def bs0 : BrowserState :=
  { microPaths := [("app1", "/detail?id=5")],
    microStates := [("app1", "/detail?id=5")] }

/-- An empty browser state. -/
def bsEmpty : BrowserState :=
  { microPaths := [], microStates := [] }

/-! Helper lemmas about the router primitives. -/

theorem toList_sappend (a b : String) :
    (String.append a b).toList = a.toList ++ b.toList := by
  cases a
  cases b
  rfl

theorem splitCharsOnFirst_cons_self (c : Char) (ys : List Char) :
    splitCharsOnFirst c (c :: ys) = ([], some ys) := by
  simp [splitCharsOnFirst]

theorem splitCharsOnFirst_not_mem (c : Char) (xs : List Char) (h : c ∉ xs) :
    splitCharsOnFirst c xs = (xs, none) := by
  induction xs with
  | nil => rfl
  | cons x xs ih =>
      have hxc : ¬ x = c := by
        intro he
        exact h (by simp [he])
      have hrest : c ∉ xs := fun hm => h (List.mem_cons_of_mem _ hm)
      simp [splitCharsOnFirst, hxc, ih hrest]

theorem splitCharsOnFirst_append_not_mem (c : Char) (xs ys : List Char) (h : c ∉ xs) :
    splitCharsOnFirst c (xs ++ ys)
      = (xs ++ (splitCharsOnFirst c ys).1, (splitCharsOnFirst c ys).2) := by
  induction xs with
  | nil => simp
  | cons x xs ih =>
      have hxc : ¬ x = c := by
        intro he
        exact h (by simp [he])
      have hrest : c ∉ xs := fun hm => h (List.mem_cons_of_mem _ hm)
      simp [splitCharsOnFirst, hxc, ih hrest]

theorem not_mem_splitCharsOnFirst_fst (c : Char) (cs : List Char) :
    c ∉ (splitCharsOnFirst c cs).1 := by
  induction cs with
  | nil => simp [splitCharsOnFirst]
  | cons x xs ih =>
      by_cases hxc : x = c
      · simp [splitCharsOnFirst, hxc]
      · simp only [splitCharsOnFirst, if_neg hxc, List.mem_cons, not_or]
        refine ⟨fun he => hxc he.symm, ih⟩

theorem splitCharsOnFirst_snd_none (c : Char) (cs : List Char)
    (h : (splitCharsOnFirst c cs).2 = none) :
    (splitCharsOnFirst c cs).1 = cs := by
  induction cs with
  | nil => rfl
  | cons x xs ih =>
      by_cases hxc : x = c
      · simp [splitCharsOnFirst, hxc] at h
      · simp only [splitCharsOnFirst, if_neg hxc] at h ⊢
        simp [ih h]

theorem splitCharsOnFirst_snd_some (c : Char) (cs b : List Char)
    (h : (splitCharsOnFirst c cs).2 = some b) :
    cs = (splitCharsOnFirst c cs).1 ++ c :: b := by
  induction cs with
  | nil => simp [splitCharsOnFirst] at h
  | cons x xs ih =>
      by_cases hxc : x = c
      · simp only [splitCharsOnFirst, if_pos hxc] at h ⊢
        simp only [Option.some.injEq] at h
        simp [hxc, h]
      · simp only [splitCharsOnFirst, if_neg hxc] at h ⊢
        rw [List.cons_append, ← ih h]

theorem toList_mk (l : List Char) : (String.mk l).toList = l := rfl

/-- Computes `parseChars` from the two splits it performs. -/
theorem parseChars_eq (cs bh1 p : List Char) (hOpt sOpt : Option (List Char))
    (h1 : splitCharsOnFirst '#' cs = (bh1, hOpt))
    (h2 : splitCharsOnFirst '?' bh1 = (p, sOpt)) :
    parseChars cs = ⟨String.mk p,
      match sOpt with | some s => String.mk ('?' :: s) | none => "",
      match hOpt with | some h => String.mk ('#' :: h) | none => ""⟩ := by
  cases sOpt <;> cases hOpt <;> simp [parseChars, h1, h2]

theorem parseChars_roundtrip (cs : List Char) :
    parseChars ((parseChars cs).pathname.toList
      ++ ((parseChars cs).search.toList ++ (parseChars cs).hash.toList))
      = parseChars cs := by
  rcases hbh : splitCharsOnFirst '#' cs with ⟨bh1, bh2⟩
  rcases hps : splitCharsOnFirst '?' bh1 with ⟨p, sOpt⟩
  have hnotHashBh : '#' ∉ bh1 := by
    have := not_mem_splitCharsOnFirst_fst '#' cs
    rw [hbh] at this
    exact this
  have hnotQp : '?' ∉ p := by
    have := not_mem_splitCharsOnFirst_fst '?' bh1
    rw [hps] at this
    exact this
  cases sOpt with
  | some s =>
      have hbh1eq : bh1 = p ++ '?' :: s := by
        have := splitCharsOnFirst_snd_some '?' bh1 s (by rw [hps])
        rw [hps] at this
        exact this
      have hnotHashP : '#' ∉ p := fun hm => hnotHashBh (hbh1eq ▸ List.mem_append_left _ hm)
      have hnotHashS : '#' ∉ s := by
        intro hm
        exact hnotHashBh (hbh1eq ▸ List.mem_append_right _ (List.mem_cons_of_mem _ hm))
      have hnotHashPS : '#' ∉ p ++ '?' :: s := by
        intro hm
        rcases List.mem_append.mp hm with h1 | h2
        · exact hnotHashP h1
        · rcases List.mem_cons.mp h2 with h3 | h4
          · exact absurd h3 (by decide)
          · exact hnotHashS h4
      have hsplitQ : splitCharsOnFirst '?' (p ++ '?' :: s) = (p, some s) := by
        rw [splitCharsOnFirst_append_not_mem '?' p ('?' :: s) hnotQp]
        simp [splitCharsOnFirst_cons_self]
      cases bh2 with
      | some h =>
          rw [parseChars_eq cs bh1 p (some h) (some s) hbh hps]
          have hin : (String.mk p).toList
              ++ ((String.mk ('?' :: s)).toList ++ (String.mk ('#' :: h)).toList)
              = (p ++ '?' :: s) ++ '#' :: h := by
            simp [toList_mk]
          rw [hin]
          have hsplitHash :
              splitCharsOnFirst '#' ((p ++ '?' :: s) ++ '#' :: h) = (p ++ '?' :: s, some h) := by
            rw [splitCharsOnFirst_append_not_mem '#' (p ++ '?' :: s) ('#' :: h) hnotHashPS]
            simp [splitCharsOnFirst_cons_self]
          rw [parseChars_eq _ _ p (some h) (some s) hsplitHash hsplitQ]
      | none =>
          rw [parseChars_eq cs bh1 p none (some s) hbh hps]
          have hin : (String.mk p).toList
              ++ ((String.mk ('?' :: s)).toList ++ ("" : String).toList)
              = p ++ '?' :: s := by
            simp [toList_mk]
          rw [hin]
          have hsplitHash : splitCharsOnFirst '#' (p ++ '?' :: s) = (p ++ '?' :: s, none) :=
            splitCharsOnFirst_not_mem '#' _ hnotHashPS
          rw [parseChars_eq _ _ p none (some s) hsplitHash hsplitQ]
  | none =>
      have hpeq : p = bh1 := by
        have := splitCharsOnFirst_snd_none '?' bh1 (by rw [hps])
        rw [hps] at this
        exact this
      have hnotHashP : '#' ∉ p := hpeq ▸ hnotHashBh
      have hsplitQ : splitCharsOnFirst '?' p = (p, none) :=
        splitCharsOnFirst_not_mem '?' p hnotQp
      cases bh2 with
      | some h =>
          rw [parseChars_eq cs bh1 p (some h) none hbh hps]
          have hin : (String.mk p).toList
              ++ (("" : String).toList ++ (String.mk ('#' :: h)).toList)
              = p ++ '#' :: h := by
            simp [toList_mk]
          rw [hin]
          have hsplitHash : splitCharsOnFirst '#' (p ++ '#' :: h) = (p, some h) := by
            rw [splitCharsOnFirst_append_not_mem '#' p ('#' :: h) hnotHashP]
            simp [splitCharsOnFirst_cons_self]
          rw [parseChars_eq _ _ p (some h) none hsplitHash hsplitQ]
      | none =>
          rw [parseChars_eq cs bh1 p none none hbh hps]
          have hin : (String.mk p).toList
              ++ (("" : String).toList ++ ("" : String).toList) = p := by
            simp [toList_mk]
          rw [hin]
          have hsplitHash : splitCharsOnFirst '#' p = (p, none) :=
            splitCharsOnFirst_not_mem '#' p hnotHashP
          rw [parseChars_eq _ _ p none none hsplitHash hsplitQ]

theorem assocLookup_assocSet (k v : String) (l : List (String × String)) :
    assocLookup k (assocSet k v l) = some v := by
  induction l with
  | nil => simp [assocSet, assocLookup]
  | cons p ps ih =>
      by_cases h : p.1 = k
      · simp [assocSet, assocLookup, h]
      · simp [assocSet, assocLookup, h, ih]

theorem assocLookup_filter_self (k : String) (l : List (String × String)) :
    assocLookup k (l.filter (fun p => p.1 ≠ k)) = none := by
  simp only [ne_eq, decide_not]
  induction l with
  | nil => rfl
  | cons p ps ih =>
      rw [List.filter_cons]
      by_cases h : p.1 = k
      · simp [h, ih]
      · simp [assocLookup, h, ih]

theorem lookupApp_filter_self (k : String) (m : Registry) :
    lookupApp k (m.filter (fun p => p.1 ≠ k)) = none := by
  simp only [ne_eq, decide_not]
  induction m with
  | nil => rfl
  | cons p ps ih =>
      rw [List.filter_cons]
      by_cases h : p.1 = k
      · simp [h, ih]
      · simp [lookupApp, h, ih]

/-! Helper lemmas about the lifecycle operations. -/

theorem unmount_fst (app : App) (d : Bool) (oc : UnmountOracle) (m : Registry) :
    (unmount app d oc m).1
      = { app with state := AppState.UNMOUNT, keepAliveState := none, container := none } := by
  cases hu : app.umdHookUnmount <;> cases hoc : oc.hookOutcome <;>
    simp [unmount, handleUnmounted, actionsForUnmount, actionsForCompletelyDestory, hu, hoc] <;>
    split <;> rfl

theorem unmount_destroy_registry (app : App) (oc : UnmountOracle) (m : Registry) :
    (unmount app true oc m).2.1 = m.filter (fun p => p.1 ≠ app.name) := by
  cases hu : app.umdHookUnmount <;> cases hoc : oc.hookOutcome <;>
    simp [unmount, handleUnmounted, actionsForUnmount, actionsForCompletelyDestory, hu, hoc]

theorem dispatchMountedEvent_preserve (a : App) :
    (dispatchMountedEvent a).1.container = a.container
    ∧ (dispatchMountedEvent a).1.inline = a.inline
    ∧ (dispatchMountedEvent a).1.baseroute = a.baseroute := by
  unfold dispatchMountedEvent
  split <;> simp

theorem handleMounted_preserve (a : App) (res : MRes) :
    (handleMounted a res).1.container = a.container
    ∧ (handleMounted a res).1.inline = a.inline
    ∧ (handleMounted a res).1.baseroute = a.baseroute := by
  cases res <;> simp [handleMounted, dispatchMountedEvent_preserve a]

theorem runCallback_preserve (st : LoopState) (step : CallbackStep) :
    (runCallback st step).1.app.container = st.app.container
    ∧ (runCallback st step).1.app.inline = st.app.inline
    ∧ (runCallback st step).1.app.baseroute = st.app.baseroute := by
  unfold runCallback
  by_cases hm : st.app.umdMode = false <;>
  by_cases hs : st.app.state ≠ AppState.UNMOUNT <;>
  by_cases hp : step.probeFindsHooks = true <;>
  cases ho : step.mountHookOutcome <;>
    simp [getUmdLibraryHooks, hm, hs, hp, ho, handleMounted_preserve] <;>
    split <;>
    simp [handleMounted_preserve]

theorem runCallbacks_preserve (steps : List CallbackStep) (st : LoopState) :
    (runCallbacks st steps).1.app.container = st.app.container
    ∧ (runCallbacks st steps).1.app.inline = st.app.inline
    ∧ (runCallbacks st steps).1.app.baseroute = st.app.baseroute := by
  induction steps generalizing st with
  | nil => exact ⟨rfl, rfl, rfl⟩
  | cons step rest ih =>
      have h1 := runCallback_preserve st step
      have h2 := ih (runCallback st step).1
      simp only [runCallbacks]
      exact ⟨h2.1.trans h1.1, h2.2.1.trans h1.2.1, h2.2.2.trans h1.2.2⟩

theorem runCallback_flag_true (st : LoopState) (step : CallbackStep)
    (h : st.hasDispatchMountedEvent = true) :
    (runCallback st step).1.hasDispatchMountedEvent = true
    ∧ (runCallback st step).1.dispatchCount = st.dispatchCount := by
  unfold runCallback
  by_cases hm : st.app.umdMode = false <;>
  by_cases hs : st.app.state ≠ AppState.UNMOUNT <;>
  by_cases hp : step.probeFindsHooks = true <;>
  cases ho : step.mountHookOutcome <;>
    simp [getUmdLibraryHooks, hm, hs, hp, ho, h]

theorem runCallback_cases (st : LoopState) (step : CallbackStep)
    (h : st.hasDispatchMountedEvent = false) :
    ((runCallback st step).1.hasDispatchMountedEvent = true
      ∧ (runCallback st step).1.dispatchCount = st.dispatchCount + 1)
    ∨ ((runCallback st step).1.hasDispatchMountedEvent = false
      ∧ (runCallback st step).1.dispatchCount = st.dispatchCount) := by
  unfold runCallback
  by_cases hm : st.app.umdMode = false <;>
  by_cases hs : st.app.state ≠ AppState.UNMOUNT <;>
  by_cases hp : step.probeFindsHooks = true <;>
  cases ho : step.mountHookOutcome <;>
    simp [getUmdLibraryHooks, hm, hs, hp, ho, h] <;>
    split <;>
    simp_all

theorem runCallback_fires (st : LoopState) (step : CallbackStep)
    (h : st.hasDispatchMountedEvent = false) (hf : step.isFinished = true) :
    (runCallback st step).1.hasDispatchMountedEvent = true
    ∧ (runCallback st step).1.dispatchCount = st.dispatchCount + 1 := by
  unfold runCallback
  by_cases hm : st.app.umdMode = false <;>
  by_cases hs : st.app.state ≠ AppState.UNMOUNT <;>
  by_cases hp : step.probeFindsHooks = true <;>
  cases ho : step.mountHookOutcome <;>
    simp [getUmdLibraryHooks, hm, hs, hp, ho, h, hf]

theorem runCallback_no_trigger (st : LoopState) (step : CallbackStep)
    (h : st.hasDispatchMountedEvent = false) (hm : st.app.umdMode = false)
    (hf : step.isFinished = false) (hp : step.probeFindsHooks = false) :
    (runCallback st step).1.hasDispatchMountedEvent = false
    ∧ (runCallback st step).1.dispatchCount = st.dispatchCount
    ∧ (runCallback st step).1.app.umdMode = false := by
  unfold runCallback
  by_cases hs : st.app.state ≠ AppState.UNMOUNT <;>
    simp [getUmdLibraryHooks, h, hm, hf, hp, hs]

theorem runCallbacks_flag_true (steps : List CallbackStep) (st : LoopState)
    (h : st.hasDispatchMountedEvent = true) :
    (runCallbacks st steps).1.hasDispatchMountedEvent = true
    ∧ (runCallbacks st steps).1.dispatchCount = st.dispatchCount := by
  induction steps generalizing st with
  | nil => exact ⟨h, rfl⟩
  | cons step rest ih =>
      have h1 := runCallback_flag_true st step h
      have h2 := ih (runCallback st step).1 h1.1
      exact ⟨h2.1, h2.2.trans h1.2⟩

theorem runCallbacks_count_le (steps : List CallbackStep) (st : LoopState)
    (h : st.hasDispatchMountedEvent = false) :
    (runCallbacks st steps).1.dispatchCount ≤ st.dispatchCount + 1 := by
  induction steps generalizing st with
  | nil => exact Nat.le_succ _
  | cons step rest ih =>
      rcases runCallback_cases st step h with ⟨hf1, hc1⟩ | ⟨hf1, hc1⟩
      · have h2 := runCallbacks_flag_true rest (runCallback st step).1 hf1
        simp only [runCallbacks]
        rw [h2.2, hc1]
      · have h2 := ih (runCallback st step).1 hf1
        simp only [runCallbacks]
        rw [hc1] at h2
        exact h2

theorem runCallbacks_fires (steps : List CallbackStep) (st : LoopState)
    (h : st.hasDispatchMountedEvent = false)
    (hex : ∃ s ∈ steps, s.isFinished = true) :
    st.dispatchCount + 1 ≤ (runCallbacks st steps).1.dispatchCount := by
  induction steps generalizing st with
  | nil => simp at hex
  | cons step rest ih =>
      rcases runCallback_cases st step h with ⟨hf1, hc1⟩ | ⟨hf1, hc1⟩
      · have h2 := runCallbacks_flag_true rest (runCallback st step).1 hf1
        simp only [runCallbacks]
        rw [h2.2, hc1]
      · have hsf : step.isFinished = false := by
          cases hsf : step.isFinished
          · rfl
          · have := (runCallback_fires st step h hsf).1
            rw [this] at hf1
            exact absurd hf1 (by simp)
        rcases hex with ⟨w, hw, hwf⟩
        rcases List.mem_cons.mp hw with hws | hwr
        · rw [hws] at hwf
          rw [hwf] at hsf
          exact absurd hsf (by simp)
        · have h2 := ih (runCallback st step).1 hf1 ⟨w, hwr, hwf⟩
          simp only [runCallbacks]
          rw [hc1] at h2
          exact h2

theorem runCallbacks_no_trigger (steps : List CallbackStep) (st : LoopState)
    (h : st.hasDispatchMountedEvent = false) (hm : st.app.umdMode = false)
    (hall : ∀ s ∈ steps, s.isFinished = false ∧ s.probeFindsHooks = false) :
    (runCallbacks st steps).1.hasDispatchMountedEvent = false
    ∧ (runCallbacks st steps).1.dispatchCount = st.dispatchCount
    ∧ (runCallbacks st steps).1.app.umdMode = false := by
  induction steps generalizing st with
  | nil => exact ⟨h, rfl, hm⟩
  | cons step rest ih =>
      have hstep := hall step (List.mem_cons_self step rest)
      have h1 := runCallback_no_trigger st step h hm hstep.1 hstep.2
      have h2 := ih (runCallback st step).1 h1.1 h1.2.2
        (fun s hs => hall s (List.mem_cons_of_mem step hs))
      exact ⟨h2.1, h2.2.1.trans h1.2.1, h2.2.2⟩

theorem dispatchMountedEvent_state_ne (a : App) (h : a.state ≠ AppState.UNMOUNT) :
    (dispatchMountedEvent a).1.state ≠ AppState.UNMOUNT := by
  simp [dispatchMountedEvent, h]

theorem handleMounted_state_ne (a : App) (res : MRes)
    (h : a.state ≠ AppState.UNMOUNT) :
    (handleMounted a res).1.state ≠ AppState.UNMOUNT := by
  cases res <;>
    simp only [handleMounted] <;>
    first
      | exact dispatchMountedEvent_state_ne a h
      | exact h

theorem runCallback_state_ne (st : LoopState) (step : CallbackStep)
    (h : st.app.state ≠ AppState.UNMOUNT) :
    (runCallback st step).1.app.state ≠ AppState.UNMOUNT := by
  unfold runCallback
  by_cases hm : st.app.umdMode = false <;>
  by_cases hp : step.probeFindsHooks = true <;>
  cases ho : step.mountHookOutcome <;>
    simp [getUmdLibraryHooks, hm, hp, ho, h] <;>
    split <;>
    first
      | exact handleMounted_state_ne _ _ h
      | exact h
      | simp_all [handleMounted_state_ne]

theorem runCallback_fires_probe (st : LoopState) (step : CallbackStep)
    (h : st.hasDispatchMountedEvent = false) (hs : st.app.state ≠ AppState.UNMOUNT)
    (hp : step.probeFindsHooks = true) :
    (runCallback st step).1.hasDispatchMountedEvent = true
    ∧ (runCallback st step).1.dispatchCount = st.dispatchCount + 1 := by
  unfold runCallback
  by_cases hm : st.app.umdMode = false <;>
  cases ho : step.mountHookOutcome <;>
    simp [getUmdLibraryHooks, hm, hs, hp, ho, h]

theorem runCallbacks_fires_probe (steps : List CallbackStep) (st : LoopState)
    (h : st.hasDispatchMountedEvent = false) (hs : st.app.state ≠ AppState.UNMOUNT)
    (hex : ∃ s ∈ steps, s.probeFindsHooks = true) :
    st.dispatchCount + 1 ≤ (runCallbacks st steps).1.dispatchCount := by
  induction steps generalizing st with
  | nil => simp at hex
  | cons step rest ih =>
      rcases runCallback_cases st step h with ⟨hf1, hc1⟩ | ⟨hf1, hc1⟩
      · have h2 := runCallbacks_flag_true rest (runCallback st step).1 hf1
        simp only [runCallbacks]
        rw [h2.2, hc1]
      · have hpf : step.probeFindsHooks = false := by
          cases hpf : step.probeFindsHooks
          · rfl
          · have := (runCallback_fires_probe st step h hs hpf).1
            rw [this] at hf1
            exact absurd hf1 (by simp)
        rcases hex with ⟨w, hw, hwp⟩
        rcases List.mem_cons.mp hw with hws | hwr
        · rw [hws] at hwp
          rw [hwp] at hpf
          exact absurd hpf (by simp)
        · have h2 := ih (runCallback st step).1 hf1
            (runCallback_state_ne st step hs) ⟨w, hwr, hwp⟩
          simp only [runCallbacks]
          rw [hc1] at h2
          exact h2

theorem dispatchMountedEvent_effects (a : App) :
    Effect.rebuildUmdSnapshot ∉ (dispatchMountedEvent a).2
    ∧ Effect.execScriptsStart ∉ (dispatchMountedEvent a).2
    ∧ Effect.recordUmdSnapshot ∉ (dispatchMountedEvent a).2 := by
  unfold dispatchMountedEvent
  split <;> simp

theorem handleMounted_effects (a : App) (res : MRes) :
    Effect.rebuildUmdSnapshot ∉ (handleMounted a res).2
    ∧ Effect.execScriptsStart ∉ (handleMounted a res).2
    ∧ Effect.recordUmdSnapshot ∉ (handleMounted a res).2 := by
  cases res <;> simp [handleMounted, dispatchMountedEvent_effects]

theorem runCallback_no_rebuild (st : LoopState) (step : CallbackStep) :
    Effect.rebuildUmdSnapshot ∉ (runCallback st step).2 := by
  unfold runCallback
  by_cases hm : st.app.umdMode = false <;>
  by_cases hs : st.app.state ≠ AppState.UNMOUNT <;>
  by_cases hp : step.probeFindsHooks = true <;>
  cases ho : step.mountHookOutcome <;>
    simp [getUmdLibraryHooks, hm, hs, hp, ho] <;>
    split <;>
    simp_all [handleMounted_effects]

theorem runCallbacks_no_rebuild (steps : List CallbackStep) (st : LoopState) :
    Effect.rebuildUmdSnapshot ∉ (runCallbacks st steps).2 := by
  induction steps generalizing st with
  | nil => simp [runCallbacks]
  | cons step rest ih =>
      simp only [runCallbacks, List.mem_append]
      push_neg
      exact ⟨runCallback_no_rebuild st step, ih (runCallback st step).1⟩

/-! Claims C4 and C5: router virtualization. -/

/-- C4: for every call `clearRouteStateFromURL(name, url, loc, keepRouteState)`,
if `keepRouteState` is true the virtual location's pathname, search and hash
are left untouched; if false the location is first reset to the
pathname + search + hash of the URL created from the app's base url; in both
cases the app's encoded segment and private state are stripped from the
shared browser URL and history state via `removeStateAndPathFromBrowser`. -/
theorem clearRouteStateFromURL_keepRouteState (appName url : String)
    (loc : MicroLocation) (keep : Bool) (bs : BrowserState) :
    (clearRouteStateFromURL appName url loc true bs).1 = loc
    ∧ (clearRouteStateFromURL appName url loc false bs).1 = createURL url
    ∧ (clearRouteStateFromURL appName url loc keep bs).2
        = removeStateAndPathFromBrowser appName bs
    ∧ assocLookup appName (clearRouteStateFromURL appName url loc keep bs).2.microPaths = none
    ∧ assocLookup appName (clearRouteStateFromURL appName url loc keep bs).2.microStates = none := by
  refine ⟨by simp [clearRouteStateFromURL], ?_, rfl, ?_, ?_⟩
  · show (clearRouteStateFromURL appName url loc false bs).1 = createURL url
    simp only [clearRouteStateFromURL, updateLocation, createURL]
    rw [toList_sappend, toList_sappend]
    exact parseChars_roundtrip (urlPathChars url)
  · exact assocLookup_filter_self appName bs.microPaths
  · exact assocLookup_filter_self appName bs.microStates

/-- C5: `initRouteStateWithURL(name, url, loc)` decodes the shared browser
URL's encoded micro-path segment for `name` into the virtual location when
one is present, leaving the browser state untouched; otherwise it exports
the current virtual location into the shared browser URL and history state.
Decoding always takes precedence over exporting defaults. -/
theorem initRouteStateWithURL_decode_precedence (appName url : String)
    (loc : MicroLocation) (bs : BrowserState) :
    (∀ mp, assocLookup appName bs.microPaths = some mp →
        initRouteStateWithURL appName url loc bs = (parsePath mp, bs))
    ∧ (assocLookup appName bs.microPaths = none →
        initRouteStateWithURL appName url loc bs
          = (loc, updateBrowserURLWithLocation appName url loc bs)
        ∧ assocLookup appName
            (initRouteStateWithURL appName url loc bs).2.microPaths
            = some (encodeLocation loc)
        ∧ assocLookup appName
            (initRouteStateWithURL appName url loc bs).2.microStates
            = some (encodeLocation loc)) := by
  constructor
  · intro mp h
    simp [initRouteStateWithURL, h, updateLocation, parsePath]
  · intro h
    refine ⟨by simp [initRouteStateWithURL, h], ?_, ?_⟩
    · simp [initRouteStateWithURL, h, updateBrowserURLWithLocation, assocLookup_assocSet]
    · simp [initRouteStateWithURL, h, updateBrowserURLWithLocation, assocLookup_assocSet]

/-- C1: mount is attempted exactly when `loadSourceLevel` reaches exactly 2:
the first `onLoad` only increments the counter and performs no mount, the
second stores the html fragment, sets `LOAD_SOURCE_FINISHED` and calls
`mount` exactly once; a `mount` invoked while `loadSourceLevel` is not 2
only sets state `LOADING_SOURCE_CODE` and returns with no effects. -/
theorem onLoad_mount_at_level_two (app : App) (html : String) (o : MountOracle)
    (c : Option String) (i : Option Bool) (b : Option String) :
    (app.loadSourceLevel = 0 →
        onLoad app html o = ({ app with loadSourceLevel := 1 }, []))
    ∧ (app.loadSourceLevel = 1 → app.isPrefetch = false →
        app.state ≠ AppState.UNMOUNT →
        onLoad app html o
          = mount { app with loadSourceLevel := 2, sourceHtml := some html, state := AppState.LOAD_SOURCE_FINISHED } none none none o)
    ∧ (app.loadSourceLevel ≠ 2 →
        (mount app c i b o).2 = []
        ∧ (mount app c i b o).1.state = AppState.LOADING_SOURCE_CODE
        ∧ (mount app c i b o).1.loadSourceLevel = app.loadSourceLevel
        ∧ (mount app c i b o).1.sourceHtml = app.sourceHtml
        ∧ (mount app c i b o).1.umdMode = app.umdMode) := by
  refine ⟨?_, ?_, ?_⟩
  · intro h0
    simp [onLoad, h0]
  · intro h1 hp hs
    simp [onLoad, h1, hp, hs]
  · intro h2
    refine ⟨?_, ?_, ?_, ?_, ?_⟩ <;> simp [mount, h2]

/-- Witness for C1 on a fresh instance: the first completion does not mount,
and a premature `mount` only records intent. -/
theorem onLoad_mount_at_level_two_witness :
    onLoad app0 "h" oracle0 = ({ app0 with loadSourceLevel := 1 }, [])
    ∧ (mount app0 none none none oracle0).2 = []
    ∧ onLoad appLvl1 "h" oracle0
      = mount { appLvl1 with loadSourceLevel := 2, sourceHtml := some "h", state := AppState.LOAD_SOURCE_FINISHED } none none none oracle0 := by
  refine ⟨?_, ?_, ?_⟩
  · exact (onLoad_mount_at_level_two app0 "h" oracle0 none none none).1 (by decide)
  · exact ((onLoad_mount_at_level_two app0 "h" oracle0 none none none).2.2 (by decide)).1
  · exact (onLoad_mount_at_level_two appLvl1 "h" oracle0 none none none).2.1
      (by decide) (by decide) (by decide)

/-- C2: after `unmount(true)` while `loadSourceLevel` is 1 (state is then
`UNMOUNT`), a late `onLoad` that raises the counter to 2 caches the html but
does not mount, and `dispatchMountedEvent` never sets `MOUNTED` nor fires
the mounted notification while state is `UNMOUNT`. -/
theorem unmount_then_late_onLoad_noop (app : App) (uo : UnmountOracle)
    (m : Registry) (html : String) (o : MountOracle)
    (h1 : app.loadSourceLevel = 1) :
    (unmount app true uo m).1.state = AppState.UNMOUNT
    ∧ onLoad (unmount app true uo m).1 html o
        = ({ (unmount app true uo m).1 with loadSourceLevel := 2, sourceHtml := some html }, [])
    ∧ (∀ b, b.state = AppState.UNMOUNT → dispatchMountedEvent b = (b, [])) := by
  have hu := unmount_fst app true uo m
  refine ⟨by rw [hu], ?_, ?_⟩
  · rw [hu]
    simp [onLoad, h1]
  · intro b hb
    simp [dispatchMountedEvent, hb]

/-- Witness for C2 on a half-loaded instance that is destroyed. -/
theorem unmount_then_late_onLoad_noop_witness :
    (unmount appLvl1 true uoracle0 reg0).1.state = AppState.UNMOUNT
    ∧ onLoad (unmount appLvl1 true uoracle0 reg0).1 "h" oracle0
      = ({ (unmount appLvl1 true uoracle0 reg0).1 with loadSourceLevel := 2, sourceHtml := some "h" }, []) := by
  have h := unmount_then_late_onLoad_noop appLvl1 uoracle0 reg0 "h" oracle0 (by decide)
  exact ⟨h.1, h.2.1⟩

/-- C3: with `umdMode` already true, `mount` takes the UMD branch: it never
executes scripts and performs no UMD re-detection snapshot, it rebuilds the
recorded sandbox snapshot and invokes the cached UMD mount hook, then
handles the mounted notification — the mounted lifecycle event fires (and
state becomes `MOUNTED`) unless the hook returned a rejecting promise, in
which case the error notification fires instead; script execution happens
only when `umdMode` is false, which in turn never rebuilds a snapshot. -/
theorem mount_umd_branch (app : App) (c : Option String) (i : Option Bool)
    (b : Option String) (o : MountOracle) (h2 : app.loadSourceLevel = 2) :
    (app.umdMode = true →
        Effect.execScriptsStart ∉ (mount app c i b o).2
        ∧ Effect.recordUmdSnapshot ∉ (mount app c i b o).2
        ∧ Effect.callUmdHookMount ∈ (mount app c i b o).2
        ∧ (app.useSandbox = true → Effect.rebuildUmdSnapshot ∈ (mount app c i b o).2)
        ∧ (o.umdRemountOutcome ≠ HookOutcome.promiseReject →
            Effect.lifecycle "mounted" app.name ∈ (mount app c i b o).2
            ∧ (mount app c i b o).1.state = AppState.MOUNTED)
        ∧ (o.umdRemountOutcome = HookOutcome.promiseReject →
            Effect.lifecycle "error" app.name ∈ (mount app c i b o).2))
    ∧ (app.umdMode = false →
        Effect.execScriptsStart ∈ (mount app c i b o).2
        ∧ Effect.rebuildUmdSnapshot ∉ (mount app c i b o).2) := by
  constructor
  · intro hu
    have hmain : Effect.execScriptsStart ∉ (mount app c i b o).2
        ∧ Effect.recordUmdSnapshot ∉ (mount app c i b o).2
        ∧ Effect.callUmdHookMount ∈ (mount app c i b o).2 := by
      cases hsb : app.useSandbox <;> cases hoo : o.umdRemountOutcome <;>
        simp [mount, h2, hu, hsb, hoo, handleMounted, dispatchMountedEvent]
    refine ⟨hmain.1, hmain.2.1, hmain.2.2, ?_, ?_, ?_⟩
    · intro hsb
      cases hoo : o.umdRemountOutcome <;>
        simp [mount, h2, hu, hsb, hoo, handleMounted, dispatchMountedEvent]
    · intro hne
      cases hsb : app.useSandbox <;> cases hoo : o.umdRemountOutcome <;>
        first
          | exact absurd hoo hne
          | (constructor <;>
              simp [mount, h2, hu, hsb, hoo, handleMounted, dispatchMountedEvent])
    · intro hre
      cases hsb : app.useSandbox <;>
        simp [mount, h2, hu, hsb, hre, handleMounted, dispatchMountedEvent]
  · intro hu
    constructor
    · simp [mount, h2, hu]
    · cases hsb : app.useSandbox <;>
        simp [mount, h2, hu, hsb, runCallbacks_no_rebuild]

/-- Witness for C3 on a loaded UMD instance (whose hook returns normally,
so the mounted notification is handled) and on a loaded non-UMD one. -/
theorem mount_umd_branch_witness :
    Effect.execScriptsStart ∉ (mount appUmd none none none oracle0).2
    ∧ Effect.rebuildUmdSnapshot ∈ (mount appUmd none none none oracle0).2
    ∧ Effect.lifecycle "mounted" "app1" ∈ (mount appUmd none none none oracle0).2
    ∧ (mount appUmd none none none oracle0).1.state = AppState.MOUNTED
    ∧ Effect.execScriptsStart ∈ (mount appLoaded none none none oracle0).2 := by
  have h1 := mount_umd_branch appUmd none none none oracle0 (by decide)
  have h2 := mount_umd_branch appLoaded none none none oracle0 (by decide)
  have hm := (h1.1 rfl).2.2.2.2.1 (by decide)
  exact ⟨(h1.1 rfl).1, (h1.1 rfl).2.2.2.1 rfl, hm.1, hm.2, (h2.2 rfl).1⟩

/-- Witness for C5 at a concrete browser state: a segment already encoded
for `app1` is decoded into the virtual location, and on an empty browser
state the virtual location is exported instead. -/
theorem initRouteStateWithURL_decode_precedence_witness :
    initRouteStateWithURL "app1" "http://a.test/index.html" loc0 bs0
      = ({ pathname := "/detail", search := "?id=5", hash := "" }, bs0)
    ∧ initRouteStateWithURL "app1" "http://a.test/index.html" loc0 bsEmpty
      = (loc0, updateBrowserURLWithLocation "app1" "http://a.test/index.html" loc0 bsEmpty) := by
  constructor
  · rw [(initRouteStateWithURL_decode_precedence "app1" "http://a.test/index.html" loc0 bs0).1
      "/detail?id=5" (by decide)]
    decide
  · exact ((initRouteStateWithURL_decode_precedence "app1" "http://a.test/index.html" loc0
      bsEmpty).2 (by decide)).1

/-- C6: when state is `LOAD_SOURCE_ERROR`, `unmount(destroy)` behaves as
`unmount(true)` for any `destroy` argument, and the instance's entry is
removed from the registry map — a failed app is never kept alive. -/
theorem unmount_load_error_forces_destroy (app : App) (d : Bool)
    (oc : UnmountOracle) (m : Registry)
    (h : app.state = AppState.LOAD_SOURCE_ERROR) :
    unmount app d oc m = unmount app true oc m
    ∧ lookupApp app.name (unmount app d oc m).2.1 = none := by
  have heq : unmount app d oc m = unmount app true oc m := by
    simp [unmount, h]
  refine ⟨heq, ?_⟩
  rw [heq, unmount_destroy_registry]
  exact lookupApp_filter_self app.name m

/-- Witness for C6: a failed app unmounted with `destroy = false` is
nevertheless destroyed and dropped from the registry. -/
theorem unmount_load_error_forces_destroy_witness :
    unmount appErr false uoracle0 [("app1", appErr)]
      = unmount appErr true uoracle0 [("app1", appErr)]
    ∧ lookupApp "app1" (unmount appErr false uoracle0 [("app1", appErr)]).2.1 = none := by
  have h := unmount_load_error_forces_destroy appErr false uoracle0
    [("app1", appErr)] (by decide)
  exact ⟨h.1, h.2⟩

/-- C7: a failing UMD unmount hook never aborts teardown: a synchronous
throw is caught and logged inside `unmount` while the host-facing unmount
event still fires and the container is still released, and for a deferred
hook result both the success and the failure continuation of
`handleUnmounted` invoke the same `actionsForUnmount` with the same destroy
flag. -/
theorem unmount_hook_failure_teardown (app : App) (d : Bool)
    (oc : UnmountOracle) (m : Registry) (hh : app.umdHookUnmount = true) :
    (oc.hookOutcome = HookOutcome.throws →
        Effect.logError "unmount" ∈ (unmount app d oc m).2.2
        ∧ Effect.lifecycle "unmount" app.name ∈ (unmount app d oc m).2.2
        ∧ (unmount app d oc m).1.container = none)
    ∧ (∀ b db oc2 m2, handleUnmounted b db MRes.promiseResolved oc2 m2
          = actionsForUnmount b db oc2 m2
        ∧ handleUnmounted b db MRes.promiseRejected oc2 m2
          = actionsForUnmount b db oc2 m2) := by
  constructor
  · intro ho
    refine ⟨?_, ?_, ?_⟩
    · simp [unmount, hh, ho]
    · simp [unmount, hh, ho, handleUnmounted, actionsForUnmount]
    · rw [unmount_fst]
  · intro b db oc2 m2
    exact ⟨rfl, rfl⟩

/-- Witness for C7: a hook that throws is logged and teardown completes. -/
theorem unmount_hook_failure_teardown_witness :
    Effect.logError "unmount" ∈ (unmount appUmd false uoracleThrows reg0).2.2
    ∧ Effect.lifecycle "unmount" "app1" ∈ (unmount appUmd false uoracleThrows reg0).2.2
    ∧ (unmount appUmd false uoracleThrows reg0).1.container = none := by
  have h := (unmount_hook_failure_teardown appUmd false uoracleThrows reg0
    (by decide)).1 (by decide)
  exact ⟨h.1, h.2.1, h.2.2⟩

/-- C8: within a single non-UMD mount, the mounted notification is handled
at most once across all `execScripts` completion callbacks: the one-shot
`hasDispatchMountedEvent` flag keeps the ghost dispatch count at most 1, a
batch containing a finishing callback dispatches exactly once, a batch in
which some callback's probe detects UMD hooks (the app not being unmounted)
also dispatches exactly once even with no finishing callback — whichever
trigger occurs first — and a batch with no finishing callback and no UMD
detection dispatches nothing. -/
theorem execScripts_dispatch_once (app : App) (steps : List CallbackStep)
    (h : app.umdMode = false) :
    (runCallbacks ⟨app, false, MRes.undef, 0⟩ steps).1.dispatchCount ≤ 1
    ∧ ((∃ s ∈ steps, s.isFinished = true) →
        (runCallbacks ⟨app, false, MRes.undef, 0⟩ steps).1.dispatchCount = 1)
    ∧ ((∀ s ∈ steps, s.isFinished = false ∧ s.probeFindsHooks = false) →
        (runCallbacks ⟨app, false, MRes.undef, 0⟩ steps).1.dispatchCount = 0)
    ∧ (app.state ≠ AppState.UNMOUNT →
        (∃ s ∈ steps, s.probeFindsHooks = true) →
        (runCallbacks ⟨app, false, MRes.undef, 0⟩ steps).1.dispatchCount = 1) := by
  have hz : (⟨app, false, MRes.undef, 0⟩ : LoopState).dispatchCount = 0 := rfl
  refine ⟨?_, ?_, ?_, ?_⟩
  · have h2 := runCallbacks_count_le steps ⟨app, false, MRes.undef, 0⟩ rfl
    rw [hz] at h2
    omega
  · intro hex
    have hlo := runCallbacks_fires steps ⟨app, false, MRes.undef, 0⟩ rfl hex
    have hhi := runCallbacks_count_le steps ⟨app, false, MRes.undef, 0⟩ rfl
    rw [hz] at hlo hhi
    omega
  · intro hall
    exact (runCallbacks_no_trigger steps ⟨app, false, MRes.undef, 0⟩ rfl h hall).2.1
  · intro hs hex
    have hlo := runCallbacks_fires_probe steps ⟨app, false, MRes.undef, 0⟩ rfl hs hex
    have hhi := runCallbacks_count_le steps ⟨app, false, MRes.undef, 0⟩ rfl
    rw [hz] at hlo hhi
    omega

/-- Witness for C8 on a two-callback batch whose second callback is final,
and on a single-callback batch that is not final but detects UMD hooks. -/
theorem execScripts_dispatch_once_witness :
    (runCallbacks ⟨app0, false, MRes.undef, 0⟩ oracleTwoSteps.steps).1.dispatchCount ≤ 1
    ∧ (runCallbacks ⟨app0, false, MRes.undef, 0⟩ oracleTwoSteps.steps).1.dispatchCount = 1
    ∧ (runCallbacks ⟨app0, false, MRes.undef, 0⟩ [stepUmd]).1.dispatchCount = 1 := by
  have h := execScripts_dispatch_once app0 oracleTwoSteps.steps rfl
  have hp := (execScripts_dispatch_once app0 [stepUmd] rfl).2.2.2
    (by decide) ⟨stepUmd, by decide, by decide⟩
  exact ⟨h.1, h.2.1 ⟨stepFin, by decide, by decide⟩, hp⟩

/-- C9: when the instance already holds a container, `mount` keeps it and
ignores the passed container argument, while `inline` and `baseroute` are
updated from the arguments when provided. -/
theorem mount_keeps_existing_container (app : App) (c0 : String)
    (carg : Option String) (iarg : Option Bool) (barg : Option String)
    (o : MountOracle) (h : app.container = some c0) :
    (mount app carg iarg barg o).1.container = some c0
    ∧ (mount app carg iarg barg o).1.inline
        = (match iarg with | some v => v | none => app.inline)
    ∧ (mount app carg iarg barg o).1.baseroute = barg.getD app.baseroute := by
  have hres : (mount app carg iarg barg o).1.container
        = (match app.container with | some cc => some cc | none => carg)
      ∧ (mount app carg iarg barg o).1.inline
        = (match iarg with
            | some v => if v ≠ app.inline then v else app.inline
            | none => app.inline)
      ∧ (mount app carg iarg barg o).1.baseroute = barg.getD app.baseroute := by
    simp only [mount]
    split
    · exact ⟨rfl, rfl, rfl⟩
    · split
      · exact ⟨(runCallbacks_preserve o.steps _).1,
          (runCallbacks_preserve o.steps _).2.1,
          (runCallbacks_preserve o.steps _).2.2⟩
      · exact ⟨(handleMounted_preserve _ _).1,
          (handleMounted_preserve _ _).2.1,
          (handleMounted_preserve _ _).2.2⟩
  refine ⟨?_, ?_, hres.2.2⟩
  · rw [hres.1, h]
  · rw [hres.2.1]
    cases iarg with
    | none => rfl
    | some v =>
        by_cases hv : v = app.inline
        · simp [hv]
        · simp [hv]

/-- Witness for C9: a mounted instance keeps its container over a remount
with a different container argument. -/
theorem mount_keeps_existing_container_witness :
    (mount { appUmd with container := some "c1" } (some "c2") (some true) (some "/base") oracle0).1.container = some "c1"
    ∧ (mount { appUmd with container := some "c1" } (some "c2") (some true) (some "/base") oracle0).1.inline = true
    ∧ (mount { appUmd with container := some "c1" } (some "c2") (some true) (some "/base") oracle0).1.baseroute = "/base" := by
  have h := mount_keeps_existing_container { appUmd with container := some "c1" }
    "c1" (some "c2") (some true) (some "/base") oracle0 (by decide)
  exact ⟨h.1, h.2.1, h.2.2⟩

/-- C10: `getActiveApps` returns exactly the names of registered instances
whose state is not `UNMOUNT` and whose `isPrefetch` flag is false, and
`getAllApps` returns the name of every instance in the registry map
regardless of state. -/
theorem getActiveApps_getAllApps_spec (m : Registry) (n : String) :
    (n ∈ getActiveApps m
      ↔ ∃ a, (n, a) ∈ m ∧ a.state ≠ AppState.UNMOUNT ∧ a.isPrefetch = false)
    ∧ (n ∈ getAllApps m ↔ ∃ a, (n, a) ∈ m) := by
  constructor
  · constructor
    · intro hmem
      rcases List.mem_filterMap.mp hmem with ⟨p, hp, hif⟩
      by_cases hc : AppState.UNMOUNT ≠ getAppState p.2 ∧ p.2.isPrefetch = false
      · rw [if_pos hc] at hif
        have hpn : p.1 = n := by simpa using hif
        refine ⟨p.2, ?_, fun he => hc.1 (by rw [getAppState, he]), hc.2⟩
        rw [← hpn]
        simpa using hp
      · rw [if_neg hc] at hif
        exact absurd hif (by simp)
    · rintro ⟨a, ha, hs, hp⟩
      refine List.mem_filterMap.mpr ⟨(n, a), ha, ?_⟩
      have hcond : AppState.UNMOUNT ≠ getAppState (n, a).2 ∧ (n, a).2.isPrefetch = false :=
        ⟨fun he => hs he.symm, hp⟩
      rw [if_pos hcond]
  · simp only [getAllApps, List.mem_map]
    constructor
    · rintro ⟨p, hp, hpe⟩
      exact ⟨p.2, by rw [← hpe]; simpa using hp⟩
    · rintro ⟨a, ha⟩
      exact ⟨(n, a), ha, rfl⟩

end MicroApp
